/-
Verification of the STDP spiking-neural-network simulation core
(`src/SNN2_AER/python/stdp_network.py`) against its design specification.

The Python classes `LIF_Neuron`, `STDP_Synapse` and `STDP_Network` are
shallowly embedded as Lean structures over `ℝ`; the mutating methods become
pure state-transformers.  Python's `-np.inf` initial value of
`last_spike_time` is modelled by `none : Option ℝ` ("never spiked"), and
`np.clip` by `clip` below.  The Poisson spike trains drawn by
`encode_spike_train` are pure data generated before the simulation loop runs
(spec §4.4), so `simulate_pattern` takes them as an explicit argument, one
boolean train per pattern pixel.
-/

import Mathlib

noncomputable section

/-- `np.clip(x, lo, hi)`: `min (max x lo) hi`. -/
def clip (x lo hi : ℝ) : ℝ := min (max x lo) hi

/-- State of one leaky integrate-and-fire neuron (`LIF_Neuron.__init__`).
`spike_history` stores `1`/`0` exactly as the Python list does. -/
structure LIF_Neuron where
  id : ℕ
  threshold : ℝ
  tau_m : ℝ
  tau_s : ℝ
  v_rest : ℝ
  v_reset : ℝ
  v : ℝ
  i_syn : ℝ
  spike_times : List ℝ
  last_spike_time : Option ℝ
  v_history : List ℝ
  spike_history : List ℕ

/-- A freshly constructed neuron: `v = v_rest`, `i_syn = 0`, empty histories. -/
def freshLIF (nid : ℕ) (threshold : ℝ) : LIF_Neuron :=
  ⟨nid, threshold, 20, 5, 0, 0, 0, 0, [], none, [], []⟩

/-- `LIF_Neuron.reset`. -/
def LIF_Neuron.reset (n : LIF_Neuron) : LIF_Neuron :=
  { n with v := n.v_rest, i_syn := 0, spike_times := [],
           last_spike_time := none, v_history := [], spike_history := [] }

/-- `LIF_Neuron.step(dt, input_current)`: accumulate-and-decay the synaptic
current, forward-Euler integrate the membrane, then threshold/reset.  The
spike time recorded is `len(v_history) * dt`, read before the history is
extended, exactly as in the source. -/
def LIF_Neuron.step (n : LIF_Neuron) (dt input_current : ℝ) : LIF_Neuron × Bool :=
  let i1 := (n.i_syn + input_current) * Real.exp (-dt / n.tau_s)
  let v1 := n.v + (-(n.v - n.v_rest) + i1) / n.tau_m * dt
  if v1 ≥ n.threshold then
    let t := (n.v_history.length : ℝ) * dt
    ({ n with i_syn := i1, v := n.v_reset,
              spike_times := n.spike_times ++ [t],
              last_spike_time := some t,
              v_history := n.v_history ++ [n.v_reset],
              spike_history := n.spike_history ++ [1] }, true)
  else
    ({ n with i_syn := i1, v := v1,
              v_history := n.v_history ++ [v1],
              spike_history := n.spike_history ++ [0] }, false)

/-- State of one plastic synapse (`STDP_Synapse.__init__`). -/
structure STDP_Synapse where
  pre_id : ℕ
  post_id : ℕ
  w : ℝ
  w_min : ℝ
  w_max : ℝ
  A_plus : ℝ
  A_minus : ℝ
  tau_plus : ℝ
  tau_minus : ℝ
  w_history : List ℝ
  pre_trace : ℝ
  post_trace : ℝ

/-- A freshly constructed synapse with initial weight `w0`
(`w_history = [w_init]`, zero traces). -/
def mkSyn (pre post : ℕ) (w0 Ap Am : ℝ) : STDP_Synapse :=
  ⟨pre, post, w0, 0, 1, Ap, Am, 20, 20, [w0], 0, 0⟩

/-- `STDP_Synapse.update_traces(dt, pre_spike, post_spike)`: decay both
traces, add the spike contributions (depression on a pre spike while the
decayed post trace is positive, potentiation on a post spike while the
already-incremented pre trace is positive), then clip the weight. -/
def STDP_Synapse.update_traces (s : STDP_Synapse) (dt : ℝ)
    (pre_spike post_spike : Bool) : STDP_Synapse :=
  let pre1 := s.pre_trace * Real.exp (-dt / s.tau_plus)
  let post1 := s.post_trace * Real.exp (-dt / s.tau_minus)
  let pre2 := if pre_spike then pre1 + s.A_plus else pre1
  let w1 := if pre_spike ∧ post1 > 0 then s.w - post1 else s.w
  let post2 := if post_spike then post1 + s.A_minus else post1
  let w2 := if post_spike ∧ pre2 > 0 then w1 + pre2 else w1
  { s with pre_trace := pre2, post_trace := post2,
           w := clip w2 s.w_min s.w_max }

/-- `STDP_Synapse.apply_stdp(pre_spike_time, post_spike_time)`: the
closed-form event-driven rule, not exercised by the simulation loop. -/
def STDP_Synapse.apply_stdp (s : STDP_Synapse)
    (pre_spike_time post_spike_time : ℝ) : STDP_Synapse :=
  let delta_t := post_spike_time - pre_spike_time
  let w1 :=
    if delta_t > 0 then s.w + s.A_plus * Real.exp (-delta_t / s.tau_plus)
    else if delta_t < 0 then s.w - s.A_minus * Real.exp (delta_t / s.tau_minus)
    else s.w
  { s with w := clip w1 s.w_min s.w_max }

/-- `STDP_Synapse.record_weight`. -/
def STDP_Synapse.record_weight (s : STDP_Synapse) : STDP_Synapse :=
  { s with w_history := s.w_history ++ [s.w] }


/-- The three-layer network (`STDP_Network.__init__`).  The synapse matrices
are flat lists in row-major order: `synapses_ih[i * n_hidden + h]` connects
input `i` to hidden `h`, `synapses_ho[h * n_output + o]` connects hidden `h`
to output `o`; the constructor makes them exactly `n_input * n_hidden` and
`n_hidden * n_output` long. -/
structure STDP_Network where
  n_input : ℕ
  n_hidden : ℕ
  n_output : ℕ
  dt : ℝ
  stdp_enabled : Bool
  input_neurons : List LIF_Neuron
  hidden_neurons : List LIF_Neuron
  output_neurons : List LIF_Neuron
  synapses_ih : List STDP_Synapse
  synapses_ho : List STDP_Synapse

/-- `STDP_Network.reset`: reset every neuron of the three layers; synapses
are untouched. -/
def STDP_Network.reset (net : STDP_Network) : STDP_Network :=
  { net with input_neurons := net.input_neurons.map LIF_Neuron.reset,
             hidden_neurons := net.hidden_neurons.map LIF_Neuron.reset,
             output_neurons := net.output_neurons.map LIF_Neuron.reset }

/-- Default synapse used by `List.getD`; the Python code would raise
`IndexError` instead, but the constructor guarantees the flat lists are long
enough, so this default is never produced on constructor-shaped networks. -/
def dummySyn : STDP_Synapse := mkSyn 0 0 0 (1/100) (1/100)

/-- Input current into hidden neuron `h`: the sum of the weights of all
input→hidden synapses whose pre-synaptic input neuron spiked this step
(`simulate_pattern`, first inner loop). -/
def ihCurrent (net : STDP_Network) (inputFlags : List Bool) (h : ℕ) : ℝ :=
  (List.range net.n_input).foldl
    (fun acc i =>
      if inputFlags.getD i false then
        acc + (net.synapses_ih.getD (i * net.n_hidden + h) dummySyn).w
      else acc) 0

/-- Raw current into output neuron `o`: the sum of the weights of all
hidden→output synapses whose pre-synaptic hidden neuron spiked this step. -/
def hoRawCurrent (net : STDP_Network) (hiddenFlags : List Bool) (o : ℕ) : ℝ :=
  (List.range net.n_hidden).foldl
    (fun acc h =>
      if hiddenFlags.getD h false then
        acc + (net.synapses_ho.getD (h * net.n_output + o) dummySyn).w
      else acc) 0

/-- Lateral inhibition: from the raw current of output `o`, subtract `0.1`
times every other output's raw current when that raw current is positive. -/
def lateralCurrent (n_output : ℕ) (currents : List ℝ) (o : ℕ) : ℝ :=
  (List.range n_output).foldl
    (fun acc j =>
      if j ≠ o ∧ currents.getD j 0 > 0 then acc - 0.1 * currents.getD j 0
      else acc) (currents.getD o 0)

/-- Supervised teaching signal: applied only when a label was supplied AND
`stdp_enabled` holds (`if label is not None and self.stdp_enabled`). -/
def superBias (stdp_enabled : Bool) (label : Option ℕ) (o : ℕ) : ℝ :=
  match label with
  | none => 0
  | some l => if stdp_enabled then (if o = l then 0.5 else -0.4) else 0

/-- Net current of output neuron `o` for one step. -/
def hoNetCurrent (net : STDP_Network) (currents : List ℝ) (label : Option ℕ)
    (o : ℕ) : ℝ :=
  lateralCurrent net.n_output currents o + superBias net.stdp_enabled label o

/-- Advance every neuron of a layer by one step with its input current
(Python iterates the layer with `enumerate`, currents precomputed). -/
def stepLayer (neurons : List LIF_Neuron) (dt : ℝ) (currents : List ℝ) :
    List (LIF_Neuron × Bool) :=
  (neurons.zip currents).map (fun p => p.1.step dt p.2)

/-- Append the step time `t` to the spike record of every neuron that
spiked this step. -/
def appendSpikes (spikes : List (List ℝ)) (flags : List Bool) (t : ℝ) :
    List (List ℝ) :=
  List.zipWith (fun lst flag => if flag then lst ++ [t] else lst) spikes flags

/-- One hidden→output synapse update of the plasticity phase
(`simulate_pattern` lines 336–364).  With a label, the correct output index
gets `update_traces` plus the +0.01/+0.005 rewards; every incorrect index
gets only the −0.015/−0.02 punishments (no trace update); without a label,
plain `update_traces`.  The final `np.clip` of line 364 runs in all cases. -/
def hoUpdate (s : STDP_Synapse) (dt : ℝ) (h_flag o_flag : Bool)
    (label : Option ℕ) (o_idx : ℕ) : STDP_Synapse :=
  let s1 :=
    match label with
    | some l =>
      if o_idx = l then
        let s' := s.update_traces dt h_flag o_flag
        let w1 := if h_flag then s'.w + 0.01 else s'.w
        let w2 := if o_flag then w1 + 0.005 else w1
        { s' with w := w2 }
      else
        let w1 := if h_flag then s.w - 0.015 else s.w
        let w2 := if o_flag then w1 - 0.02 else w1
        { s with w := w2 }
    | none => s.update_traces dt h_flag o_flag
  { s1 with w := clip s1.w s1.w_min s1.w_max }

/-- Plasticity phase for the input→hidden matrix: `update_traces` on every
synapse with this step's input/hidden spike flags.  The flat index
`i * n_hidden + h` of the Python double loop is decomposed as
`idx / n_hidden` and `idx % n_hidden`. -/
def plasticityIH (net : STDP_Network) (inputFlags hiddenFlags : List Bool) :
    List STDP_Synapse :=
  net.synapses_ih.mapIdx
    (fun idx s =>
      s.update_traces net.dt (inputFlags.getD (idx / net.n_hidden) false)
        (hiddenFlags.getD (idx % net.n_hidden) false))

/-- Plasticity phase for the hidden→output matrix. -/
def plasticityHO (net : STDP_Network) (hiddenFlags outputFlags : List Bool)
    (label : Option ℕ) : List STDP_Synapse :=
  net.synapses_ho.mapIdx
    (fun idx s =>
      hoUpdate s net.dt (hiddenFlags.getD (idx / net.n_output) false)
        (outputFlags.getD (idx % net.n_output) false) label (idx % net.n_output))

/-- Full simulation state carried through the step loop: the network plus
the per-layer spike-time records accumulated by `simulate_pattern`. -/
structure SimState where
  net : STDP_Network
  hidden_spikes : List (List ℝ)
  output_spikes : List (List ℝ)

/-- One iteration of the `simulate_pattern` loop, in the source's strict
phase order: input flags, hidden layer, output raw currents, lateral
inhibition + supervised bias, output layer, then (if `stdp_enabled`) the two
plasticity phases. -/
def simStep (trains : List (List Bool)) (label : Option ℕ) (st : SimState)
    (step : ℕ) : SimState :=
  let net := st.net
  let t := (step : ℝ) * net.dt
  let inputFlags := (List.range net.n_input).map
    (fun i => (trains.getD i []).getD step false)
  let hiddenPairs := stepLayer net.hidden_neurons net.dt
    ((List.range net.n_hidden).map (ihCurrent net inputFlags))
  let hiddenFlags := hiddenPairs.map Prod.snd
  let hidden_spikes1 := appendSpikes st.hidden_spikes hiddenFlags t
  let rawCurrents := (List.range net.n_output).map (hoRawCurrent net hiddenFlags)
  let outputPairs := stepLayer net.output_neurons net.dt
    ((List.range net.n_output).map (hoNetCurrent net rawCurrents label))
  let outputFlags := outputPairs.map Prod.snd
  let output_spikes1 := appendSpikes st.output_spikes outputFlags t
  let net1 := { net with hidden_neurons := hiddenPairs.map Prod.fst,
                         output_neurons := outputPairs.map Prod.fst }
  let net2 :=
    if net.stdp_enabled then
      { net1 with synapses_ih := plasticityIH net1 inputFlags hiddenFlags,
                  synapses_ho := plasticityHO net1 hiddenFlags outputFlags label }
    else net1
  ⟨net2, hidden_spikes1, output_spikes1⟩

/-- The whole `n_steps`-long simulation loop. -/
def simLoop (net : STDP_Network) (trains : List (List Bool)) (n_steps : ℕ)
    (label : Option ℕ) : SimState :=
  (List.range n_steps).foldl (simStep trains label)
    ⟨net, List.replicate net.n_hidden [], List.replicate net.n_output []⟩

/-- `STDP_Network.simulate_pattern(pattern, duration, label)` with
`n_steps = int(duration / dt)`.  The `trains` argument stands for the
Poisson draws of `encode_spike_train(pattern, duration)`, which produces one
boolean train per pattern pixel before the loop starts; hence callers have
`trains.length = pattern.length`.  When the pattern is shorter than
`n_input` and at least one step runs, the first step's read of the missing
train raises `KeyError`; no other validation exists in the source. -/
def STDP_Network.simulate_pattern (net : STDP_Network) (pattern : List ℝ)
    (trains : List (List Bool)) (n_steps : ℕ) (label : Option ℕ) :
    Except String SimState :=
  if n_steps ≠ 0 ∧ trains.length < net.n_input then Except.error "KeyError"
  else Except.ok (simLoop net trains n_steps label)

/-- First index of the maximum, scanning left to right with a strict
comparison: the accumulator semantics of `np.argmax`. -/
def argmaxAux : List ℕ → ℕ → ℕ → ℕ → ℕ
  | [], bi, _, _ => bi
  | x :: xs, bi, bv, i =>
    if x > bv then argmaxAux xs i x (i + 1) else argmaxAux xs bi bv (i + 1)

/-- `STDP_Network.get_winner(output_spikes)`: `np.argmax` over the spike
counts (`np.argmax` raises on an empty array; `0` here is a dead value for
that unreachable case). -/
def STDP_Network.get_winner (output_spikes : List (List ℝ)) : ℕ :=
  match output_spikes.map List.length with
  | [] => 0
  | c :: cs => argmaxAux cs 0 c 1

/-- `STDP_Network.get_weights_matrix(layer)`: the dense weight matrix for
layer name `"input_hidden"` or `"hidden_output"`, a `ValueError` for any
other name. -/
def STDP_Network.get_weights_matrix (net : STDP_Network) (layer : String) :
    Except String (List (List ℝ)) :=
  if layer = "input_hidden" then
    Except.ok ((List.range net.n_input).map
      (fun i => (List.range net.n_hidden).map
        (fun h => (net.synapses_ih.getD (i * net.n_hidden + h) dummySyn).w)))
  else if layer = "hidden_output" then
    Except.ok ((List.range net.n_hidden).map
      (fun h => (List.range net.n_output).map
        (fun o => (net.synapses_ho.getD (h * net.n_output + o) dummySyn).w)))
  else Except.error ("Unknown layer: " ++ layer)

/-- `STDP_Network.record_weights`. -/
def STDP_Network.record_weights (net : STDP_Network) : STDP_Network :=
  { net with synapses_ih := net.synapses_ih.map STDP_Synapse.record_weight,
             synapses_ho := net.synapses_ho.map STDP_Synapse.record_weight }

/-- A sequence of `update_traces` calls, each given as
`(dt, pre_spike, post_spike)`, applied in order. -/
def applyCalls (s : STDP_Synapse) (calls : List (ℝ × Bool × Bool)) : STDP_Synapse :=
  calls.foldl (fun s c => s.update_traces c.1 c.2.1 c.2.2) s

/-- Written from the claim's words (spec §4.3 step 8): `update_traces` is
called for every hidden/output synapse pair regardless of whether a label
was supplied, with the reward/punishment applied on top for labelled steps.
To be compared with `hoUpdate`, the embedding of the source. -/
def hoUpdateClaimed (s : STDP_Synapse) (dt : ℝ) (h_flag o_flag : Bool)
    (label : Option ℕ) (o_idx : ℕ) : STDP_Synapse :=
  let t := s.update_traces dt h_flag o_flag
  let s1 :=
    match label with
    | some l =>
      if o_idx = l then
        { t with w := t.w + (if h_flag then 0.01 else 0) +
                        (if o_flag then 0.005 else 0) }
      else
        { t with w := t.w - (if h_flag then 0.015 else 0) -
                        (if o_flag then 0.02 else 0) }
    | none => t
  { s1 with w := clip s1.w s1.w_min s1.w_max }

/-- Written from the claim's words (spec §4.3 step 5): the supervised bias
is added whenever a label is supplied, with no `stdp_enabled` gate.  To be
compared with `hoNetCurrent`, the embedding of the source. -/
def hoNetCurrentClaimed (n_output : ℕ) (currents : List ℝ) (label : Option ℕ)
    (o : ℕ) : ℝ :=
  lateralCurrent n_output currents o +
    (match label with
     | none => 0
     | some l => if o = l then 0.5 else -0.4)

/-- A minimal well-formed 1→1→1 network with STDP disabled. -/
def cNet : STDP_Network :=
  ⟨1, 1, 1, 1, false, [freshLIF 0 0.8], [freshLIF 0 0.9], [freshLIF 0 0.8],
   [mkSyn 0 0 0 0.015 0.015], [mkSyn 0 0 0 0.02 0.02]⟩

/-- The 4→8→3 network of the end-to-end test: default thresholds
(0.8 / 0.9 / 0.8), `dt = 1`, STDP enabled, every synapse weight `0`. -/
def net4 : STDP_Network :=
  ⟨4, 8, 3, 1, true,
   List.replicate 4 (freshLIF 0 0.8),
   List.replicate 8 (freshLIF 0 0.9),
   List.replicate 3 (freshLIF 0 0.8),
   (List.range 32).map (fun k => mkSyn (k / 8) (k % 8) 0 0.015 0.015),
   (List.range 24).map (fun k => mkSyn (k / 3) (k % 3) 0 0.02 0.02)⟩

/-- `net4` with learning switched off. -/
def netNoStdp3 : STDP_Network := { net4 with stdp_enabled := false }

/-- Spike trains with no spike at any of the 200 steps for any of the four
input neurons. -/
def trains0 : List (List Bool) := List.replicate 4 (List.replicate 200 false)

/-- The `[1,0,1,1]` L-shape test pattern. -/
def pattern4 : List ℝ := [1, 0, 1, 1]

/-- A synapse with a live pre-trace, used to separate `hoUpdate` from
`hoUpdateClaimed`. -/
def sTrace : STDP_Synapse := ⟨0, 0, 0.5, 0, 1, 0.02, 0.02, 20, 20, [0.5], 1, 0⟩

/-- The synaptic-current recurrence of output neuron 0 of `net4` under the
constant teaching current `0.5` (no spike yet). -/
def pureS : ℕ → ℝ
  | 0 => 0
  | n + 1 => (pureS n + 0.5) * Real.exp (-1 / 5)

/-- The membrane-potential recurrence of output neuron 0 of `net4` under
the constant teaching current `0.5`, as long as no spike has occurred. -/
def pureV : ℕ → ℝ
  | 0 => 0
  | n + 1 => pureV n + (-(pureV n - 0) + pureS (n + 1)) / 20 * 1

/-- Fixed LIF parameters of the output neurons of `net4`. -/
def outParams (x : LIF_Neuron) : Prop :=
  x.v_rest = 0 ∧ x.v_reset = 0 ∧ x.threshold = 0.8 ∧ x.tau_m = 20 ∧ x.tau_s = 5

/-- Invariant of the `net4` end-to-end run after `n` steps: the hidden
layer is uniform and silent, outputs 1 and 2 stay non-positive and silent,
and as long as output 0 has not spiked its state follows the pure
recurrence `(pureV, pureS)` with all integrated potentials below
threshold. -/
def C4Inv (st : SimState) (n : ℕ) : Prop :=
  st.net.n_input = 4 ∧ st.net.n_hidden = 8 ∧ st.net.n_output = 3 ∧
  st.net.dt = 1 ∧ st.net.stdp_enabled = true ∧
  (∃ hn : LIF_Neuron, st.net.hidden_neurons = List.replicate 8 hn ∧
    hn.v = 0 ∧ hn.i_syn = 0 ∧ hn.v_rest = 0 ∧ hn.threshold = 0.9) ∧
  (∃ o0 o1 o2 : LIF_Neuron, st.net.output_neurons = [o0, o1, o2] ∧
    outParams o0 ∧ outParams o1 ∧ outParams o2 ∧
    o1.v ≤ 0 ∧ o1.i_syn ≤ 0 ∧ o2.v ≤ 0 ∧ o2.i_syn ≤ 0 ∧
    (st.output_spikes.getD 0 [] = [] →
      o0.v = pureV n ∧ o0.i_syn = pureS n ∧ ∀ m, m < n → pureV (m + 1) < 0.8)) ∧
  st.hidden_spikes = List.replicate 8 [] ∧
  (∃ s0 : List ℝ, st.output_spikes = [s0, [], []])

/-- Whether an `Except` result is a success. -/
def exceptOk {e a : Type} : Except e a → Bool
  | Except.ok _ => true
  | Except.error _ => false

-- ### Helper lemmas ###

lemma clip_le (x lo hi : ℝ) : clip x lo hi ≤ hi := min_le_right _ _

lemma le_clip (x lo hi : ℝ) (h : lo ≤ hi) : lo ≤ clip x lo hi :=
  le_min (le_trans (le_max_right _ _) (le_refl _)) h

lemma update_traces_w_min (s : STDP_Synapse) (dt : ℝ) (p q : Bool) :
    (s.update_traces dt p q).w_min = s.w_min := rfl

lemma update_traces_w_max (s : STDP_Synapse) (dt : ℝ) (p q : Bool) :
    (s.update_traces dt p q).w_max = s.w_max := rfl

lemma update_traces_w_bounds (s : STDP_Synapse) (dt : ℝ) (p q : Bool)
    (h : s.w_min ≤ s.w_max) :
    s.w_min ≤ (s.update_traces dt p q).w ∧ (s.update_traces dt p q).w ≤ s.w_max := by
  refine ⟨?_, ?_⟩
  · exact le_clip _ _ _ h
  · exact clip_le _ _ _

lemma getD_replicate_self {α : Type} (k n : ℕ) (a : α) :
    (List.replicate k a).getD n a = a := by
  induction k generalizing n with
  | zero => simp [List.getD]
  | succ k ih =>
    cases n with
    | zero => simp [List.replicate]
    | succ n => simpa [List.replicate] using ih n

lemma getD_replicate_lt {α : Type} (k n : ℕ) (a d : α) (h : n < k) :
    (List.replicate k a).getD n d = a := by
  induction k generalizing n with
  | zero => omega
  | succ k ih =>
    cases n with
    | zero => simp [List.replicate]
    | succ n => simpa [List.replicate] using ih n (by omega)

lemma foldl_if_not {α : Type} (p : ℕ → Prop) [DecidablePred p]
    (f : α → ℕ → α) (l : List ℕ) (init : α) (h : ∀ i ∈ l, ¬ p i) :
    l.foldl (fun acc i => if p i then f acc i else acc) init = init := by
  induction l generalizing init with
  | nil => rfl
  | cons x xs ih =>
    have hx : ¬ p x := h x (by simp)
    simp only [List.foldl_cons, if_neg hx]
    exact ih init (fun i hi => h i (by simp [hi]))

lemma map_eq_replicate {α : Type} (l : List ℕ) (f : ℕ → α) (a : α)
    (h : ∀ i ∈ l, f i = a) : l.map f = List.replicate l.length a := by
  induction l with
  | nil => rfl
  | cons x xs ih =>
    simp only [List.map_cons, List.length_cons, List.replicate_succ]
    exact congrArg₂ List.cons (h x (by simp)) (ih (fun i hi => h i (by simp [hi])))

lemma zip_replicate_same {α β : Type} (k : ℕ) (a : α) (b : β) :
    (List.replicate k a).zip (List.replicate k b) = List.replicate k (a, b) := by
  induction k with
  | zero => rfl
  | succ k ih => simp [List.replicate_succ, ih]

lemma zipWith_replicate_same {α β γ : Type} (f : α → β → γ) (k : ℕ)
    (a : α) (b : β) :
    List.zipWith f (List.replicate k a) (List.replicate k b) =
      List.replicate k (f a b) := by
  induction k with
  | zero => rfl
  | succ k ih => simp [List.replicate_succ, ih]

/-- A fold with body `acc` / `acc + g i` accumulates the sum of `g` over the
elements satisfying the condition. -/
lemma foldl_if_add_eq_sum (q : ℕ → Bool) (g : ℕ → ℝ) (l : List ℕ) (init : ℝ) :
    l.foldl (fun acc i => if q i then acc + g i else acc) init =
      init + ((l.filter q).map g).sum := by
  induction l generalizing init with
  | nil => simp
  | cons x xs ih =>
    by_cases hx : q x
    · simp [List.foldl_cons, hx, ih, add_assoc]
    · simp [List.foldl_cons, hx, ih]

/-- A fold with body `acc` / `acc - c * g i` subtracts `c` times the sum of
`g` over the elements satisfying the condition. -/
lemma foldl_if_sub_eq_sum (p : ℕ → Prop) [DecidablePred p] (c : ℝ)
    (g : ℕ → ℝ) (l : List ℕ) (init : ℝ) :
    l.foldl (fun acc i => if p i then acc - c * g i else acc) init =
      init - c * ((l.filter (fun i => decide (p i))).map g).sum := by
  induction l generalizing init with
  | nil => simp
  | cons x xs ih =>
    by_cases hx : p x
    · rw [List.foldl_cons, if_pos hx, ih,
        List.filter_cons_of_pos (by simpa using hx), List.map_cons,
        List.sum_cons]
      ring
    · rw [List.foldl_cons, if_neg hx, ih,
        List.filter_cons_of_neg (by simpa using hx)]



lemma applyCalls_w_min (s : STDP_Synapse) (calls : List (ℝ × Bool × Bool)) :
    (applyCalls s calls).w_min = s.w_min := by
  induction calls generalizing s with
  | nil => rfl
  | cons c cs ih => simpa [applyCalls] using ih (s.update_traces c.1 c.2.1 c.2.2)

lemma applyCalls_w_max (s : STDP_Synapse) (calls : List (ℝ × Bool × Bool)) :
    (applyCalls s calls).w_max = s.w_max := by
  induction calls generalizing s with
  | nil => rfl
  | cons c cs ih => simpa [applyCalls] using ih (s.update_traces c.1 c.2.1 c.2.2)

lemma applyCalls_w_bounds (calls : List (ℝ × Bool × Bool)) (s : STDP_Synapse)
    (hmm : s.w_min ≤ s.w_max) (hne : calls ≠ []) :
    s.w_min ≤ (applyCalls s calls).w ∧ (applyCalls s calls).w ≤ s.w_max := by
  induction calls generalizing s with
  | nil => exact absurd rfl hne
  | cons c cs ih =>
    by_cases hcs : cs = []
    · subst hcs
      simpa [applyCalls] using update_traces_w_bounds s c.1 c.2.1 c.2.2 hmm
    · have hmm1 : (s.update_traces c.1 c.2.1 c.2.2).w_min ≤
          (s.update_traces c.1 c.2.1 c.2.2).w_max := by
        rw [update_traces_w_min, update_traces_w_max]; exact hmm
      have := ih (s.update_traces c.1 c.2.1 c.2.2) hmm1 hcs
      rw [update_traces_w_min, update_traces_w_max] at this
      simpa [applyCalls] using this

/-- C1: for every synapse whose initial weight lies in `[w_min, w_max]` and
every sequence of `update_traces` calls (any `dt`, any pre/post spike
flags), the weight is again in `[w_min, w_max]` after every call returns,
i.e. after every non-empty prefix of the call sequence; the bounds
themselves are never mutated. -/
theorem update_traces_weight_always_bounded (s : STDP_Synapse)
    (calls : List (ℝ × Bool × Bool)) (k : ℕ)
    (h1 : s.w_min ≤ s.w) (h2 : s.w ≤ s.w_max) (hk : k < calls.length) :
    s.w_min ≤ (applyCalls s (calls.take (k + 1))).w ∧
      (applyCalls s (calls.take (k + 1))).w ≤ s.w_max := by
  have hmm : s.w_min ≤ s.w_max := le_trans h1 h2
  have hne : calls.take (k + 1) ≠ [] := by
    have : 0 < calls.length := lt_of_le_of_lt (Nat.zero_le k) hk
    cases calls with
    | nil => simp at this
    | cons c cs => simp [List.take]
  exact applyCalls_w_bounds (calls.take (k + 1)) s hmm hne

theorem update_traces_weight_always_bounded_witness :
    (mkSyn 0 0 (1/2) (3/200) (3/200)).w_min ≤ (mkSyn 0 0 (1/2) (3/200) (3/200)).w ∧
      (mkSyn 0 0 (1/2) (3/200) (3/200)).w ≤ (mkSyn 0 0 (1/2) (3/200) (3/200)).w_max ∧
      (0 : ℕ) < ([((1 : ℝ), true, true), (1, false, true)] :
        List (ℝ × Bool × Bool)).length ∧
      (mkSyn 0 0 (1/2) (3/200) (3/200)).w_min ≤
        (applyCalls (mkSyn 0 0 (1/2) (3/200) (3/200))
          (([((1 : ℝ), true, true), (1, false, true)]).take (0 + 1))).w := by
  refine ⟨by norm_num [mkSyn], by norm_num [mkSyn], by norm_num, ?_⟩
  exact (update_traces_weight_always_bounded (mkSyn 0 0 (1/2) (3/200) (3/200))
    [((1 : ℝ), true, true), (1, false, true)] 0
    (by norm_num [mkSyn]) (by norm_num [mkSyn]) (by norm_num)).1

/-- C5: one `LIF_Neuron.step(dt, input_current)` call performs exactly, in
order: `i_syn ← (i_syn + input_current) · exp(-dt/tau_s)`, then
`v ← v + dt · (-(v - v_rest) + i_syn)/tau_m`; if the integrated potential
reaches `threshold` it returns `spiked = true`, appends the current
simulated time `len(v_history) · dt` to `spike_times`, sets
`last_spike_time`, and resets `v` to `v_reset` within the same step, so the
recorded potential for the step is the post-reset value; otherwise it
returns `false` and keeps the integrated potential. -/
theorem LIF_step_semantics (n : LIF_Neuron) (dt input_current : ℝ) :
    (n.step dt input_current).1.i_syn =
        (n.i_syn + input_current) * Real.exp (-dt / n.tau_s) ∧
    (n.step dt input_current).2 =
        (if n.v + (-(n.v - n.v_rest) +
            (n.i_syn + input_current) * Real.exp (-dt / n.tau_s)) / n.tau_m * dt
            ≥ n.threshold then true else false) ∧
    (if n.v + (-(n.v - n.v_rest) +
          (n.i_syn + input_current) * Real.exp (-dt / n.tau_s)) / n.tau_m * dt
          ≥ n.threshold then
        (n.step dt input_current).1.v = n.v_reset ∧
        (n.step dt input_current).1.spike_times =
          n.spike_times ++ [(n.v_history.length : ℝ) * dt] ∧
        (n.step dt input_current).1.last_spike_time =
          some ((n.v_history.length : ℝ) * dt) ∧
        (n.step dt input_current).1.v_history = n.v_history ++ [n.v_reset]
      else
        (n.step dt input_current).1.v = n.v + (-(n.v - n.v_rest) +
          (n.i_syn + input_current) * Real.exp (-dt / n.tau_s)) / n.tau_m * dt ∧
        (n.step dt input_current).1.spike_times = n.spike_times ∧
        (n.step dt input_current).1.last_spike_time = n.last_spike_time ∧
        (n.step dt input_current).1.v_history = n.v_history ++
          [n.v + (-(n.v - n.v_rest) +
            (n.i_syn + input_current) * Real.exp (-dt / n.tau_s)) / n.tau_m * dt]) := by
  by_cases h : n.v + (-(n.v - n.v_rest) +
      (n.i_syn + input_current) * Real.exp (-dt / n.tau_s)) / n.tau_m * dt
      ≥ n.threshold
  · simp only [LIF_Neuron.step, if_pos h]
    simp
  · simp only [LIF_Neuron.step, if_neg h]
    simp

/-- C7: `STDP_Network.reset` re-initializes every neuron of all three layers
(potential to `v_rest`, synaptic current to `0`, spike history empty) and
leaves both synapse lists — weights, traces and weight histories included —
exactly unchanged. -/
theorem network_reset_semantics (net : STDP_Network) :
    (net.reset).synapses_ih = net.synapses_ih ∧
    (net.reset).synapses_ho = net.synapses_ho ∧
    (net.reset).input_neurons = net.input_neurons.map LIF_Neuron.reset ∧
    (net.reset).hidden_neurons = net.hidden_neurons.map LIF_Neuron.reset ∧
    (net.reset).output_neurons = net.output_neurons.map LIF_Neuron.reset ∧
    ∀ m : LIF_Neuron,
      (LIF_Neuron.reset m).v = m.v_rest ∧
      (LIF_Neuron.reset m).i_syn = 0 ∧
      (LIF_Neuron.reset m).spike_times = [] ∧
      (LIF_Neuron.reset m).last_spike_time = none ∧
      (LIF_Neuron.reset m).v_history = [] ∧
      (LIF_Neuron.reset m).spike_history = [] := by
  refine ⟨rfl, rfl, rfl, rfl, rfl, fun m => ⟨rfl, rfl, rfl, rfl, rfl, rfl⟩⟩

lemma argmaxAux_spec : ∀ (xs pre : List ℕ) (bi bv : ℕ),
    bi < pre.length → pre.getD bi 0 = bv →
    (∀ j, j < pre.length → pre.getD j 0 ≤ bv) →
    (∀ j, j < bi → pre.getD j 0 < bv) →
    argmaxAux xs bi bv pre.length < (pre ++ xs).length ∧
    (∀ j, j < (pre ++ xs).length → (pre ++ xs).getD j 0 ≤
      (pre ++ xs).getD (argmaxAux xs bi bv pre.length) 0) ∧
    (∀ j, j < argmaxAux xs bi bv pre.length → (pre ++ xs).getD j 0 <
      (pre ++ xs).getD (argmaxAux xs bi bv pre.length) 0) := by
  intro xs
  induction xs with
  | nil =>
    intro pre bi bv hbi hbv hle hlt
    simp only [argmaxAux, List.append_nil]
    refine ⟨hbi, fun j hj => ?_, fun j hj => ?_⟩
    · rw [hbv]; exact hle j hj
    · rw [hbv]; exact hlt j hj
  | cons x xs ih =>
    intro pre bi bv hbi hbv hle hlt
    have hlen : (pre ++ [x]).length = pre.length + 1 := by simp
    have happ : (pre ++ [x]) ++ xs = pre ++ (x :: xs) := by simp
    by_cases hx : x > bv
    · have h1 : pre.length < (pre ++ [x]).length := by simp
      have h2 : (pre ++ [x]).getD pre.length 0 = x := by
        rw [List.getD_append_right _ _ _ _ (le_refl _)]
        simp [List.getD]
      have h3 : ∀ j, j < (pre ++ [x]).length → (pre ++ [x]).getD j 0 ≤ x := by
        intro j hj
        rcases Nat.lt_or_ge j pre.length with hj2 | hj2
        · rw [List.getD_append _ _ _ _ hj2]
          exact le_of_lt (lt_of_le_of_lt (hle j hj2) hx)
        · have : j = pre.length := by
            rw [hlen] at hj; omega
          rw [this, h2]
      have h4 : ∀ j, j < pre.length → (pre ++ [x]).getD j 0 < x := by
        intro j hj
        rw [List.getD_append _ _ _ _ hj]
        exact lt_of_le_of_lt (hle j hj) hx
      have := ih (pre ++ [x]) pre.length x h1 h2 (by rw [hlen] at h3 ⊢; exact h3)
        h4
      rw [hlen, happ] at this
      simpa only [argmaxAux, if_pos hx] using this
    · have h1 : bi < (pre ++ [x]).length := by
        rw [hlen]; exact Nat.lt_succ_of_lt hbi
      have h2 : (pre ++ [x]).getD bi 0 = bv := by
        rw [List.getD_append _ _ _ _ hbi]; exact hbv
      have h3 : ∀ j, j < (pre ++ [x]).length → (pre ++ [x]).getD j 0 ≤ bv := by
        intro j hj
        rcases Nat.lt_or_ge j pre.length with hj2 | hj2
        · rw [List.getD_append _ _ _ _ hj2]
          exact hle j hj2
        · have : j = pre.length := by
            rw [hlen] at hj; omega
          subst this
          rw [List.getD_append_right _ _ _ _ (le_refl _)]
          simpa [List.getD] using le_of_not_lt hx
      have h4 : ∀ j, j < bi → (pre ++ [x]).getD j 0 < bv := by
        intro j hj
        rw [List.getD_append _ _ _ _ (lt_trans hj hbi)]
        exact hlt j hj
      have := ih (pre ++ [x]) bi bv h1 h2 (by rw [hlen] at h3 ⊢; exact h3) h4
      rw [hlen, happ] at this
      simpa only [argmaxAux, if_neg hx] using this

/-- C8: `get_winner` returns an in-range index holding the maximum spike
count; every earlier index holds a strictly smaller count (NumPy `argmax`
first-occurrence tie-breaking); on counts `[2,5,5]` it returns `1` and on
`[0,0,0]` it returns `0`. -/
theorem get_winner_first_max (output_spikes : List (List ℝ)) (j : ℕ)
    (h : output_spikes ≠ []) (hj : j < output_spikes.length) :
    STDP_Network.get_winner output_spikes < output_spikes.length ∧
    (output_spikes.map List.length).getD j 0 ≤
      (output_spikes.map List.length).getD
        (STDP_Network.get_winner output_spikes) 0 ∧
    ((output_spikes.map List.length).getD j 0 <
      (output_spikes.map List.length).getD
        (STDP_Network.get_winner output_spikes) 0 ∨
      STDP_Network.get_winner output_spikes ≤ j) ∧
    STDP_Network.get_winner
      [List.replicate 2 (0 : ℝ), List.replicate 5 0, List.replicate 5 0] = 1 ∧
    STDP_Network.get_winner [([] : List ℝ), [], []] = 0 := by
  obtain ⟨y, ys, rfl⟩ := List.exists_cons_of_ne_nil h
  have hwin : STDP_Network.get_winner (y :: ys) =
      argmaxAux (ys.map List.length) 0 y.length 1 := rfl
  have hpre : ([y.length] : List ℕ).length = 1 := rfl
  have := argmaxAux_spec (ys.map List.length) [y.length] 0 y.length
    (by simp) (by simp [List.getD])
    (by
      intro k hk
      have hk0 : k = 0 := by simpa using hk
      subst hk0
      simp [List.getD])
    (by intro k hk; omega)
  rw [hpre] at this
  have happ : ([y.length] : List ℕ) ++ ys.map List.length =
      (y :: ys).map List.length := by simp
  rw [happ] at this
  have hlen2 : ((y :: ys).map List.length).length = (y :: ys).length :=
    List.length_map _ _
  rw [hlen2] at this
  obtain ⟨ha, hb, hc⟩ := this
  rw [hwin]
  refine ⟨ha, hb j hj, ?_, rfl, rfl⟩
  rcases Nat.lt_or_ge j (argmaxAux (ys.map List.length) 0 y.length 1) with h2 | h2
  · exact Or.inl (hc j h2)
  · exact Or.inr h2

theorem get_winner_first_max_witness :
    ([List.replicate 2 (0 : ℝ), List.replicate 5 0, List.replicate 5 0] :
        List (List ℝ)) ≠ [] ∧
    (0 : ℕ) < ([List.replicate 2 (0 : ℝ), List.replicate 5 0,
        List.replicate 5 0] : List (List ℝ)).length ∧
    STDP_Network.get_winner
      [List.replicate 2 (0 : ℝ), List.replicate 5 0, List.replicate 5 0] <
      ([List.replicate 2 (0 : ℝ), List.replicate 5 0, List.replicate 5 0] :
        List (List ℝ)).length := by
  refine ⟨by simp, by simp, ?_⟩
  exact (get_winner_first_max
    [List.replicate 2 (0 : ℝ), List.replicate 5 0, List.replicate 5 0] 0
    (by simp) (by simp)).1

/-- C9: `get_weights_matrix` returns, for `"input_hidden"`, the
`n_input × n_hidden` matrix whose `(i,h)` entry is the weight of synapse
`(i,h)`; for `"hidden_output"`, the `n_hidden × n_output` matrix whose
`(h,o)` entry is the weight of synapse `(h,o)`; and for every other layer
name the "Unknown layer" error.  The accessor is pure, so no network state
is mutated in any of the three cases. -/
theorem get_weights_matrix_spec (net : STDP_Network) (layer : String)
    (i h o : ℕ) (hi : i < net.n_input) (hh : h < net.n_hidden)
    (ho2 : o < net.n_output) (h1 : layer ≠ "input_hidden")
    (h2 : layer ≠ "hidden_output") :
    (∃ M, net.get_weights_matrix "input_hidden" = Except.ok M ∧
      M.length = net.n_input ∧
      M.map List.length = List.replicate net.n_input net.n_hidden ∧
      (M.getD i []).getD h 0 =
        (net.synapses_ih.getD (i * net.n_hidden + h) dummySyn).w) ∧
    (∃ M, net.get_weights_matrix "hidden_output" = Except.ok M ∧
      M.length = net.n_hidden ∧
      M.map List.length = List.replicate net.n_hidden net.n_output ∧
      (M.getD h []).getD o 0 =
        (net.synapses_ho.getD (h * net.n_output + o) dummySyn).w) ∧
    net.get_weights_matrix layer = Except.error ("Unknown layer: " ++ layer) := by
  refine ⟨⟨(List.range net.n_input).map
      (fun a => (List.range net.n_hidden).map
        (fun b => (net.synapses_ih.getD (a * net.n_hidden + b) dummySyn).w)),
      ?_, ?_, ?_, ?_⟩,
    ⟨(List.range net.n_hidden).map
      (fun a => (List.range net.n_output).map
        (fun b => (net.synapses_ho.getD (a * net.n_output + b) dummySyn).w)),
      ?_, ?_, ?_, ?_⟩, ?_⟩
  · simp [STDP_Network.get_weights_matrix]
  · simp
  · rw [List.map_map,
      map_eq_replicate _ _ net.n_hidden (fun j _ => by simp [Function.comp]),
      List.length_range]
  · have hrow : ((List.range net.n_input).map
        (fun a => (List.range net.n_hidden).map
          (fun b => (net.synapses_ih.getD (a * net.n_hidden + b) dummySyn).w))).getD
          i [] = (List.range net.n_hidden).map
          (fun b => (net.synapses_ih.getD (i * net.n_hidden + b) dummySyn).w) := by
      rw [List.getD_eq_getElem _ _ (by simpa using hi)]
      rw [List.getElem_map, List.getElem_range]
    rw [hrow, List.getD_eq_getElem _ _ (by simpa using hh)]
    rw [List.getElem_map, List.getElem_range]
  · simp [STDP_Network.get_weights_matrix]
  · simp
  · rw [List.map_map,
      map_eq_replicate _ _ net.n_output (fun j _ => by simp [Function.comp]),
      List.length_range]
  · have hrow : ((List.range net.n_hidden).map
        (fun a => (List.range net.n_output).map
          (fun b => (net.synapses_ho.getD (a * net.n_output + b) dummySyn).w))).getD
          h [] = (List.range net.n_output).map
          (fun b => (net.synapses_ho.getD (h * net.n_output + b) dummySyn).w) := by
      rw [List.getD_eq_getElem _ _ (by simpa using hh)]
      rw [List.getElem_map, List.getElem_range]
    rw [hrow, List.getD_eq_getElem _ _ (by simpa using ho2)]
    rw [List.getElem_map, List.getElem_range]
  · simp [STDP_Network.get_weights_matrix, h1, h2]

theorem get_weights_matrix_spec_witness :
    (0 : ℕ) < cNet.n_input ∧ (0 : ℕ) < cNet.n_hidden ∧
    (0 : ℕ) < cNet.n_output ∧ ("conv1" : String) ≠ "input_hidden" ∧
    ("conv1" : String) ≠ "hidden_output" ∧
    cNet.get_weights_matrix "conv1" =
      Except.error ("Unknown layer: " ++ "conv1") := by
  refine ⟨by norm_num [cNet], by norm_num [cNet], by norm_num [cNet],
    by decide, by decide, ?_⟩
  exact (get_weights_matrix_spec cNet "conv1" 0 0 0 (by norm_num [cNet])
    (by norm_num [cNet]) (by norm_num [cNet]) (by decide) (by decide)).2.2

lemma superBias_no_stdp (label : Option ℕ) (o : ℕ) :
    superBias false label o = 0 := by
  cases label <;> simp [superBias]

/-- Counterexample to "update_traces is called for every hidden/output pair
regardless of whether a label was supplied": on a labelled step, for an
output index different from the label, the source (`hoUpdate`) leaves the
pre-trace untouched, while the claimed behaviour (`hoUpdateClaimed`) would
have decayed it by `exp(-dt/tau_plus) < 1`. -/
theorem hoUpdate_wrong_output_skips_traces :
    (hoUpdate sTrace 1 false false (some 1) 0).pre_trace = 1 ∧
    (hoUpdateClaimed sTrace 1 false false (some 1) 0).pre_trace ≠ 1 := by
  constructor
  · simp [hoUpdate, sTrace]
  · have hlt : Real.exp (-(1 : ℝ) / 20) < 1 := by
      rw [Real.exp_lt_one_iff]; norm_num
    have hval : (hoUpdateClaimed sTrace 1 false false (some 1) 0).pre_trace =
        1 * Real.exp (-(1 : ℝ) / 20) := by
      simp [hoUpdateClaimed, STDP_Synapse.update_traces, sTrace]
    rw [hval, one_mul]
    exact ne_of_lt hlt

/-- C2 (amended): the hidden→output plasticity step calls `update_traces`
(then clips) when no label is supplied; with a label it calls
`update_traces` and adds the +0.01/+0.005 rewards only for the correct
output index, while every other output index gets only the −0.015/−0.02
punishments — its traces are not updated at all — and the weight is
re-clipped to `[w_min, w_max]` in every case. -/
theorem hoUpdate_semantics (s : STDP_Synapse) (dt : ℝ) (hf of : Bool)
    (l o_idx : ℕ) (hne : o_idx ≠ l) :
    hoUpdate s dt hf of none o_idx =
      { s.update_traces dt hf of with
        w := clip (s.update_traces dt hf of).w s.w_min s.w_max } ∧
    hoUpdate s dt hf of (some l) l =
      { s.update_traces dt hf of with
        w := clip ((s.update_traces dt hf of).w + (if hf then 0.01 else 0) +
          (if of then 0.005 else 0)) s.w_min s.w_max } ∧
    hoUpdate s dt hf of (some l) o_idx =
      { s with w := clip (s.w - (if hf then 0.015 else 0) -
          (if of then 0.02 else 0)) s.w_min s.w_max } := by
  refine ⟨rfl, ?_, ?_⟩
  · cases hf <;> cases of <;>
      simp [hoUpdate, update_traces_w_min, update_traces_w_max]
  · cases hf <;> cases of <;> simp [hoUpdate, hne]

theorem hoUpdate_semantics_witness :
    (0 : ℕ) ≠ 1 ∧
    hoUpdate dummySyn 1 true true (some 1) 0 =
      { dummySyn with w := clip (dummySyn.w - (if true then 0.015 else 0) -
          (if true then 0.02 else 0)) dummySyn.w_min dummySyn.w_max } :=
  ⟨by decide, (hoUpdate_semantics dummySyn 1 true true 1 0 (by decide)).2.2⟩

lemma getD_three_zero (i : ℕ) : ([0, 0, 0] : List ℝ).getD i 0 = 0 := by
  rcases i with _ | _ | _ | i <;> simp [List.getD]

lemma lateral_three_zero : lateralCurrent 3 [0, 0, 0] 0 = 0 := by
  have h := foldl_if_not
    (fun j => j ≠ 0 ∧ ([0, 0, 0] : List ℝ).getD j 0 > 0)
    (fun acc j => acc - 0.1 * ([0, 0, 0] : List ℝ).getD j 0) (List.range 3)
    (([0, 0, 0] : List ℝ).getD 0 0)
    (fun i _ => by
      show ¬(i ≠ 0 ∧ ([0, 0, 0] : List ℝ).getD i 0 > 0)
      rw [getD_three_zero i]; simp)
  simpa [lateralCurrent, getD_three_zero 0] using h

/-- Counterexample to "whenever a label is supplied, 0.5 is added to the
labelled output's net current": with `stdp_enabled = false` the source adds
nothing (`hoNetCurrent` = 0 on zero raw currents), while the claimed rule
(`hoNetCurrentClaimed`) yields 0.5. -/
theorem label_bias_needs_stdp :
    hoNetCurrent netNoStdp3 [0, 0, 0] (some 0) 0 = 0 ∧
    hoNetCurrentClaimed 3 [0, 0, 0] (some 0) 0 = 0.5 ∧
    (0 : ℝ) ≠ 0.5 := by
  refine ⟨?_, ?_, by norm_num⟩
  · have hn : netNoStdp3.n_output = 3 := rfl
    have hs : netNoStdp3.stdp_enabled = false := rfl
    rw [hoNetCurrent, hn, hs, lateral_three_zero, superBias_no_stdp]
    norm_num
  · rw [hoNetCurrentClaimed, lateral_three_zero]
    norm_num

/-- C3 (amended): each output's raw current is the sum of hidden→output
weights whose hidden neuron spiked this step; the net current is the raw
current minus 0.1 times every other positive raw current, plus the
supervised bias; and the bias is `+0.5` for the labelled index / `−0.4`
otherwise exactly when a label is supplied AND `stdp_enabled` holds, and
`0` when STDP is disabled or no label is supplied. -/
theorem output_current_semantics (net : STDP_Network)
    (hiddenFlags : List Bool) (currents : List ℝ) (label : Option ℕ)
    (o l : ℕ) :
    hoRawCurrent net hiddenFlags o =
      (((List.range net.n_hidden).filter
          (fun h => hiddenFlags.getD h false)).map
        (fun h => (net.synapses_ho.getD (h * net.n_output + o) dummySyn).w)).sum ∧
    hoNetCurrent net currents label o =
      currents.getD o 0 - 0.1 *
        (((List.range net.n_output).filter
            (fun j => decide (j ≠ o ∧ currents.getD j 0 > 0))).map
          (fun j => currents.getD j 0)).sum +
      superBias net.stdp_enabled label o ∧
    superBias true (some l) o = (if o = l then (0.5 : ℝ) else -0.4) ∧
    superBias false label o = 0 ∧
    superBias net.stdp_enabled none o = 0 := by
  refine ⟨?_, ?_, by simp [superBias], superBias_no_stdp label o, by simp [superBias]⟩
  · have h := foldl_if_add_eq_sum (fun h => hiddenFlags.getD h false)
      (fun h => (net.synapses_ho.getD (h * net.n_output + o) dummySyn).w)
      (List.range net.n_hidden) 0
    simpa [hoRawCurrent] using h
  · have h := foldl_if_sub_eq_sum
      (fun j => j ≠ o ∧ currents.getD j 0 > 0) 0.1
      (fun j => currents.getD j 0) (List.range net.n_output)
      (currents.getD o 0)
    simp only [hoNetCurrent, lateralCurrent, h]

/-- Counterexample to "simulate_pattern validates its inputs before any
simulation step runs": with `n_input = 1` and `n_output = 1`, a pattern of
the wrong length (2) together with an out-of-range label (5) is accepted
and the simulation completes normally. -/
theorem simulate_pattern_accepts_bad_inputs :
    exceptOk (cNet.simulate_pattern [1, 0] [[], []] 1 (some 5)) = true := rfl

/-- C6 (amended): `simulate_pattern` performs no validation at all.  Any
pattern longer than `n_input` (hence of the wrong length) and any label,
even one `≥ n_output`, are silently accepted and the full simulation loop
runs; only a pattern shorter than `n_input` fails, and then with a
`KeyError` raised by the first step's read of the missing spike train
rather than by an up-front check. -/
theorem simulate_pattern_no_validation (net : STDP_Network)
    (pattern : List ℝ) (trains : List (List Bool)) (n_steps l : ℕ)
    (hlen : trains.length = pattern.length)
    (hbig : net.n_input < pattern.length) (hl : net.n_output ≤ l) :
    net.simulate_pattern pattern trains n_steps (some l) =
      Except.ok (simLoop net trains n_steps (some l)) ∧
    cNet.simulate_pattern [] [] 1 none = Except.error "KeyError" := by
  constructor
  · rw [STDP_Network.simulate_pattern, if_neg]
    intro hcon
    have := hcon.2
    omega
  · rfl

theorem simulate_pattern_no_validation_witness :
    ([[], []] : List (List Bool)).length = ([1, 0] : List ℝ).length ∧
    cNet.n_input < ([1, 0] : List ℝ).length ∧ cNet.n_output ≤ 5 ∧
    cNet.simulate_pattern [1, 0] [[], []] 1 (some 5) =
      Except.ok (simLoop cNet [[], []] 1 (some 5)) :=
  ⟨rfl, by decide, by decide,
    (simulate_pattern_no_validation cNet [1, 0] [[], []] 1 5 rfl
      (by decide) (by decide)).1⟩

lemma simStep_no_stdp (trains : List (List Bool)) (label : Option ℕ)
    (st : SimState) (k : ℕ) (h : st.net.stdp_enabled = false) :
    simStep trains label st k = simStep trains none st k ∧
    (simStep trains label st k).net.synapses_ih = st.net.synapses_ih ∧
    (simStep trains label st k).net.synapses_ho = st.net.synapses_ho ∧
    (simStep trains label st k).net.stdp_enabled = false := by
  have hfun : ∀ raw : List ℝ,
      hoNetCurrent st.net raw label = hoNetCurrent st.net raw none := by
    intro raw
    funext o
    cases label with
    | none => rfl
    | some l => simp [hoNetCurrent, h, superBias]
  refine ⟨?_, ?_, ?_, ?_⟩ <;>
    simp only [simStep, h, Bool.false_eq_true, if_false, hfun]

lemma simFold_no_stdp (trains : List (List Bool)) (label : Option ℕ)
    (n : ℕ) : ∀ st : SimState, st.net.stdp_enabled = false →
    (List.range n).foldl (simStep trains label) st =
      (List.range n).foldl (simStep trains none) st ∧
    ((List.range n).foldl (simStep trains label) st).net.synapses_ih =
      st.net.synapses_ih ∧
    ((List.range n).foldl (simStep trains label) st).net.synapses_ho =
      st.net.synapses_ho ∧
    ((List.range n).foldl (simStep trains label) st).net.stdp_enabled =
      false := by
  induction n with
  | zero => exact fun st h => ⟨rfl, rfl, rfl, h⟩
  | succ n ih =>
    intro st h
    obtain ⟨he, hih, hho, hstdp⟩ := ih st h
    obtain ⟨se, sih, sho, sstdp⟩ :=
      simStep_no_stdp trains label ((List.range n).foldl (simStep trains label) st) n hstdp
    rw [List.range_succ, List.foldl_append, List.foldl_append]
    simp only [List.foldl_cons, List.foldl_nil]
    refine ⟨?_, ?_, ?_, ?_⟩
    · rw [se, he]
    · rw [sih, hih]
    · rw [sho, hho]
    · rw [se, he] at sstdp ⊢
      exact sstdp

/-- C10: with `stdp_enabled = false`, `simulate_pattern` leaves both
synapse lists — weights, traces and per-synapse weight histories included —
exactly unchanged, and its entire result (in particular the recorded hidden
and output spike trains) is identical whether any label or `None` is
supplied: the supervised bias and all plasticity are skipped. -/
theorem simulate_no_stdp_frame (net : STDP_Network) (pattern : List ℝ)
    (trains : List (List Bool)) (n_steps : ℕ) (label : Option ℕ)
    (h : net.stdp_enabled = false) :
    (simLoop net trains n_steps label).net.synapses_ih = net.synapses_ih ∧
    (simLoop net trains n_steps label).net.synapses_ho = net.synapses_ho ∧
    net.simulate_pattern pattern trains n_steps label =
      net.simulate_pattern pattern trains n_steps none := by
  obtain ⟨he, hih, hho, _⟩ := simFold_no_stdp trains label n_steps
    ⟨net, List.replicate net.n_hidden [], List.replicate net.n_output []⟩ h
  refine ⟨hih, hho, ?_⟩
  simp only [STDP_Network.simulate_pattern, simLoop, he]

theorem simulate_no_stdp_frame_witness :
    cNet.stdp_enabled = false ∧
    (simLoop cNet [[false]] 1 (some 0)).net.synapses_ih = cNet.synapses_ih :=
  ⟨rfl, (simulate_no_stdp_frame cNet [0] [[false]] 1 (some 0) rfl).1⟩

lemma exp_fifth_pos : (0 : ℝ) < Real.exp (-1 / 5) := Real.exp_pos _

lemma exp_fifth_lb : (4 / 5 : ℝ) ≤ Real.exp (-1 / 5) := by
  have h := Real.add_one_le_exp (-1 / 5 : ℝ)
  linarith

lemma exp_fifth_ub : Real.exp (-1 / 5 : ℝ) ≤ 5 / 6 := by
  have h := Real.add_one_le_exp (1 / 5 : ℝ)
  have hpos : (0 : ℝ) < 6 / 5 := by norm_num
  have h2 : (Real.exp (1 / 5))⁻¹ ≤ (6 / 5 : ℝ)⁻¹ :=
    inv_le_inv_of_le hpos (by linarith)
  rw [show (-1 / 5 : ℝ) = -(1 / 5) by norm_num, Real.exp_neg]
  calc (Real.exp (1 / 5))⁻¹ ≤ (6 / 5 : ℝ)⁻¹ := h2
    _ = 5 / 6 := by norm_num

lemma pureS_zero : pureS 0 = 0 := rfl

lemma pureS_succ (n : ℕ) :
    pureS (n + 1) = (pureS n + 0.5) * Real.exp (-1 / 5) := rfl

lemma pureV_zero : pureV 0 = 0 := rfl

lemma pureV_succ (n : ℕ) :
    pureV (n + 1) = pureV n + (-(pureV n - 0) + pureS (n + 1)) / 20 * 1 := rfl

lemma pureS_nonneg : ∀ n, 0 ≤ pureS n := by
  intro n
  induction n with
  | zero => exact le_refl 0
  | succ n ih =>
    rw [pureS_succ]
    have : (0 : ℝ) ≤ pureS n + 0.5 := by linarith
    exact mul_nonneg this exp_fifth_pos.le

lemma pureV_nonneg : ∀ n, 0 ≤ pureV n := by
  intro n
  induction n with
  | zero => exact le_refl 0
  | succ n ih =>
    rw [pureV_succ]
    have hs := pureS_nonneg (n + 1)
    linarith

lemma pureS_succ_lb (n : ℕ) (b : ℝ) (hb : 0 ≤ b) (h : b ≤ pureS n) :
    (b + 0.5) * (4 / 5) ≤ pureS (n + 1) := by
  rw [pureS_succ]
  exact mul_le_mul (by linarith) exp_fifth_lb (by norm_num) (by linarith)

lemma pureS_ge_five : ∀ n, 5 ≤ n → (13 / 10 : ℝ) ≤ pureS n := by
  have h1 : (2 / 5 : ℝ) ≤ pureS 1 := by
    have := pureS_succ_lb 0 0 le_rfl (le_of_eq pureS_zero.symm)
    linarith
  have h2 : (18 / 25 : ℝ) ≤ pureS 2 := by
    have := pureS_succ_lb 1 (2 / 5) (by norm_num) h1
    linarith
  have h3 : (122 / 125 : ℝ) ≤ pureS 3 := by
    have := pureS_succ_lb 2 (18 / 25) (by norm_num) h2
    linarith
  have h4 : (738 / 625 : ℝ) ≤ pureS 4 := by
    have := pureS_succ_lb 3 (122 / 125) (by norm_num) h3
    linarith
  have h5 : (13 / 10 : ℝ) ≤ pureS 5 := by
    have := pureS_succ_lb 4 (738 / 625) (by norm_num) h4
    linarith
  intro n hn
  induction n with
  | zero => omega
  | succ n ih =>
    rcases Nat.lt_or_ge n 5 with hlt | hge
    · have : n + 1 = 5 := by omega
      rw [this]; exact h5
    · have hs := ih hge
      have := pureS_succ_lb n (13 / 10) (by norm_num) hs
      linarith

lemma pureV_lb : ∀ k : ℕ, (13 / 10 : ℝ) * (1 - (19 / 20) ^ k) ≤ pureV (5 + k) := by
  intro k
  induction k with
  | zero =>
    simp only [pow_zero]
    have := pureV_nonneg 5
    linarith
  | succ k ih =>
    have hs : (13 / 10 : ℝ) ≤ pureS (5 + k + 1) := pureS_ge_five _ (by omega)
    have hstep : pureV (5 + (k + 1)) =
        pureV (5 + k) + (-(pureV (5 + k) - 0) + pureS (5 + k + 1)) / 20 * 1 := by
      rw [show 5 + (k + 1) = (5 + k) + 1 from rfl, pureV_succ]
    rw [hstep, pow_succ]
    have hq : (0 : ℝ) ≤ (19 / 20 : ℝ) ^ k := by positivity
    nlinarith [ih, hs]

lemma pureV_30 : (4 / 5 : ℝ) ≤ pureV 30 := by
  have h := pureV_lb 25
  rw [show 5 + 25 = 30 from rfl] at h
  have hp : ((19 : ℝ) / 20) ^ 25 ≤ 5 / 13 := by norm_num
  linarith

lemma step_params (n : LIF_Neuron) (dt I : ℝ) :
    (n.step dt I).1.threshold = n.threshold ∧
    (n.step dt I).1.tau_m = n.tau_m ∧
    (n.step dt I).1.tau_s = n.tau_s ∧
    (n.step dt I).1.v_rest = n.v_rest ∧
    (n.step dt I).1.v_reset = n.v_reset := by
  by_cases h : n.v + (-(n.v - n.v_rest) +
      (n.i_syn + I) * Real.exp (-dt / n.tau_s)) / n.tau_m * dt ≥ n.threshold
  · simp only [LIF_Neuron.step, if_pos h]
    exact ⟨trivial, trivial, trivial, trivial, trivial⟩
  · simp only [LIF_Neuron.step, if_neg h]
    exact ⟨trivial, trivial, trivial, trivial, trivial⟩

lemma step_quiet (n : LIF_Neuron) (dt : ℝ) (hv : n.v = 0) (hi : n.i_syn = 0)
    (hrest : n.v_rest = 0) (hth : n.threshold = 0.9) :
    (n.step dt 0).2 = false ∧ (n.step dt 0).1.v = 0 ∧ (n.step dt 0).1.i_syn = 0 := by
  have hi1 : (n.i_syn + 0) * Real.exp (-dt / n.tau_s) = 0 := by
    rw [hi]; ring
  have hv1 : n.v + (-(n.v - n.v_rest) +
      (n.i_syn + 0) * Real.exp (-dt / n.tau_s)) / n.tau_m * dt = 0 := by
    rw [hi1, hv, hrest]; ring
  have hcond : ¬ (n.v + (-(n.v - n.v_rest) +
      (n.i_syn + 0) * Real.exp (-dt / n.tau_s)) / n.tau_m * dt ≥ n.threshold) := by
    rw [hv1, hth]; norm_num
  simp only [LIF_Neuron.step, if_neg hcond]
  exact ⟨trivial, hv1, hi1⟩

lemma step_nonpos (n : LIF_Neuron) (I : ℝ) (hv : n.v ≤ 0) (hi : n.i_syn ≤ 0)
    (hI : I ≤ 0) (hrest : n.v_rest = 0) (hth : n.threshold = 0.8)
    (htm : n.tau_m = 20) :
    (n.step 1 I).2 = false ∧ (n.step 1 I).1.v ≤ 0 ∧ (n.step 1 I).1.i_syn ≤ 0 := by
  have hi1 : (n.i_syn + I) * Real.exp (-1 / n.tau_s) ≤ 0 :=
    mul_nonpos_of_nonpos_of_nonneg (by linarith) (Real.exp_pos _).le
  have hv1 : n.v + (-(n.v - n.v_rest) +
      (n.i_syn + I) * Real.exp (-1 / n.tau_s)) / n.tau_m * 1 ≤ 0 := by
    rw [hrest, htm]
    linarith
  have hcond : ¬ (n.v + (-(n.v - n.v_rest) +
      (n.i_syn + I) * Real.exp (-1 / n.tau_s)) / n.tau_m * 1 ≥ n.threshold) := by
    rw [hth]
    intro hc
    linarith
  simp only [LIF_Neuron.step, if_neg hcond]
  exact ⟨trivial, hv1, hi1⟩

lemma step_track (n : LIF_Neuron) (hts : n.tau_s = 5) :
    (n.step 1 0.5).1.i_syn = (n.i_syn + 0.5) * Real.exp (-1 / 5) ∧
    ((n.step 1 0.5).2 = false →
      (n.step 1 0.5).1.v = n.v + (-(n.v - n.v_rest) +
        (n.i_syn + 0.5) * Real.exp (-1 / 5)) / n.tau_m * 1 ∧
      n.v + (-(n.v - n.v_rest) +
        (n.i_syn + 0.5) * Real.exp (-1 / 5)) / n.tau_m * 1 < n.threshold) := by
  have harg : (-1 : ℝ) / n.tau_s = -1 / 5 := by rw [hts]
  by_cases h : n.v + (-(n.v - n.v_rest) +
      (n.i_syn + 0.5) * Real.exp (-1 / n.tau_s)) / n.tau_m * 1 ≥ n.threshold
  · constructor
    · simp only [LIF_Neuron.step, if_pos h]
      rw [harg]
    · intro hfalse
      exfalso
      have ht : (n.step 1 0.5).2 = true := by
        simp only [LIF_Neuron.step, if_pos h]
      rw [hfalse] at ht
      exact Bool.false_ne_true ht
  · constructor
    · simp only [LIF_Neuron.step, if_neg h]
      rw [harg]
    · intro _
      constructor
      · simp only [LIF_Neuron.step, if_neg h]
        rw [harg]
      · rw [← harg]
        exact lt_of_not_ge h

lemma stepLayer_replicate (k : ℕ) (a : LIF_Neuron) (dt c : ℝ) :
    stepLayer (List.replicate k a) dt (List.replicate k c) =
      List.replicate k (a.step dt c) := by
  unfold stepLayer
  rw [zip_replicate_same, List.map_replicate]

lemma appendSpikes_replicate_false (k : ℕ) (t : ℝ) :
    appendSpikes (List.replicate k []) (List.replicate k false) t =
      List.replicate k [] := by
  unfold appendSpikes
  rw [zipWith_replicate_same]
  simp

lemma trains0_read (i k : ℕ) : (trains0.getD i []).getD k false = false := by
  have h4 : trains0 = List.replicate 4 (List.replicate 200 false) := rfl
  by_cases h : i < 4
  · rw [h4, getD_replicate_lt 4 i _ _ h]
    exact getD_replicate_self 200 k false
  · have hlen : (List.replicate 4 (List.replicate 200 false) :
        List (List Bool)).length ≤ i := by
      simp only [List.length_replicate]
      omega
    rw [h4, List.getD_eq_default _ _ hlen]
    rfl

lemma superBias_true_some (l o : ℕ) :
    superBias true (some l) o = if o = l then (0.5 : ℝ) else -0.4 := by
  simp [superBias]

lemma step_outParams (x : LIF_Neuron) (dt I : ℝ) (hx : outParams x) :
    outParams (x.step dt I).1 := by
  obtain ⟨h1, h2, h3, h4, h5⟩ := hx
  have hp := step_params x dt I
  exact ⟨by rw [hp.2.2.2.1]; exact h1, by rw [hp.2.2.2.2]; exact h2,
         by rw [hp.1]; exact h3, by rw [hp.2.1]; exact h4,
         by rw [hp.2.2.1]; exact h5⟩

lemma C4_step (st : SimState) (n : ℕ) (hInv : C4Inv st n) :
    C4Inv (simStep trains0 (some 0) st n) (n + 1) := by
  obtain ⟨hni, hnh, hno, hdt, hstdp, ⟨hn0, hHid, hv0, hi0, hr0, hth0⟩,
    ⟨o0, o1, o2, hOut, hp0, hp1, hp2, hv1, hi1, hv2, hi2, htrack⟩,
    hhs, s0, hos⟩ := hInv
  have hIF : (List.range st.net.n_input).map
      (fun i => (trains0.getD i []).getD n false) = List.replicate 4 false := by
    rw [hni, map_eq_replicate _ _ false (fun i _ => trains0_read i n),
      List.length_range]
  have hCurH : ∀ h2, ihCurrent st.net (List.replicate 4 false) h2 = 0 := by
    intro h2
    unfold ihCurrent
    refine foldl_if_not _ _ _ _ ?_
    intro i _
    show ¬ ((List.replicate 4 false).getD i false = true)
    rw [getD_replicate_self]
    simp
  have hCur : (List.range st.net.n_hidden).map
      (ihCurrent st.net (List.replicate 4 false)) = List.replicate 8 0 := by
    rw [hnh, map_eq_replicate _ _ 0 (fun h2 _ => hCurH h2), List.length_range]
  have hq := step_quiet hn0 1 hv0 hi0 hr0 hth0
  have hqp := step_params hn0 1 0
  have hRawH : ∀ o3, hoRawCurrent st.net (List.replicate 8 false) o3 = 0 := by
    intro o3
    unfold hoRawCurrent
    refine foldl_if_not _ _ _ _ ?_
    intro i _
    show ¬ ((List.replicate 8 false).getD i false = true)
    rw [getD_replicate_self]
    simp
  have hRaw : (List.range st.net.n_output).map
      (hoRawCurrent st.net (List.replicate 8 false)) =
      List.replicate 3 (0 : ℝ) := by
    rw [hno, map_eq_replicate _ _ 0 (fun o3 _ => hRawH o3), List.length_range]
  have hNCone : ∀ o3, hoNetCurrent st.net (List.replicate 3 (0 : ℝ)) (some 0) o3 =
      (if o3 = 0 then (0.5 : ℝ) else -0.4) := by
    intro o3
    unfold hoNetCurrent lateralCurrent
    rw [hstdp, superBias_true_some]
    have hfold := foldl_if_not
      (fun j => j ≠ o3 ∧ (List.replicate 3 (0 : ℝ)).getD j 0 > 0)
      (fun acc j => acc - 0.1 * (List.replicate 3 (0 : ℝ)).getD j 0)
      (List.range st.net.n_output)
      ((List.replicate 3 (0 : ℝ)).getD o3 0)
      (fun j _ => by
        show ¬ (j ≠ o3 ∧ (List.replicate 3 (0 : ℝ)).getD j 0 > 0)
        rw [getD_replicate_self]
        simp)
    rw [hfold, getD_replicate_self, zero_add]
  have hNC : (List.range st.net.n_output).map
      (hoNetCurrent st.net (List.replicate 3 (0 : ℝ)) (some 0)) =
      [0.5, -0.4, -0.4] := by
    rw [hno, show List.range 3 = [0, 1, 2] from rfl]
    simp only [List.map_cons, List.map_nil, hNCone]
    norm_num
  have hs1 := step_nonpos o1 (-0.4) hv1 hi1 (by norm_num) hp1.1 hp1.2.2.1
    hp1.2.2.2.1
  have hs2 := step_nonpos o2 (-0.4) hv2 hi2 (by norm_num) hp2.1 hp2.2.2.1
    hp2.2.2.2.1
  have hSL : stepLayer [o0, o1, o2] 1 [0.5, -0.4, -0.4] =
      [o0.step 1 0.5, o1.step 1 (-0.4), o2.step 1 (-0.4)] := by
    simp [stepLayer]
  simp only [simStep]
  rw [if_pos (show st.net.stdp_enabled = true from hstdp)]
  rw [hdt, hIF, hCur, hHid, stepLayer_replicate]
  simp only [List.map_replicate]
  rw [hq.1, hhs, appendSpikes_replicate_false, hRaw, hNC, hOut, hSL]
  simp only [List.map_cons, List.map_nil]
  rw [hs1.1, hs2.1, hos]
  simp only [appendSpikes, List.zipWith_cons_cons, List.zipWith_nil_left,
    Bool.false_eq_true, if_false]
  unfold C4Inv
  refine ⟨hni, hnh, hno, rfl, hstdp,
    ⟨(hn0.step 1 0).1, rfl, hq.2.1, hq.2.2, ?_, ?_⟩,
    ⟨(o0.step 1 0.5).1, (o1.step 1 (-0.4)).1, (o2.step 1 (-0.4)).1, rfl,
      step_outParams o0 1 0.5 hp0, step_outParams o1 1 (-0.4) hp1,
      step_outParams o2 1 (-0.4) hp2,
      hs1.2.1, hs1.2.2, hs2.2.1, hs2.2.2, ?_⟩,
    rfl, ⟨_, rfl⟩⟩
  · rw [hqp.2.2.2.1]; exact hr0
  · rw [hqp.1]; exact hth0
  · intro hemp
    rw [List.getD_cons_zero] at hemp
    cases hf0 : (o0.step 1 0.5).2 with
    | true =>
      rw [hf0] at hemp
      simp at hemp
    | false =>
      rw [hf0] at hemp
      simp only [Bool.false_eq_true, if_false] at hemp
      have hs0 : s0 = [] := hemp
      have hold : st.output_spikes.getD 0 [] = [] := by
        rw [hos, List.getD_cons_zero, hs0]
      obtain ⟨hveq, hieq, hbound⟩ := htrack hold
      have htr := step_track o0 hp0.2.2.2.2
      have hi' : (o0.step 1 0.5).1.i_syn = pureS (n + 1) := by
        rw [htr.1, hieq, pureS_succ]
      have hv' := (htr.2 hf0).1
      have hlt := (htr.2 hf0).2
      have hveq' : (o0.step 1 0.5).1.v = pureV (n + 1) := by
        rw [hv', hp0.1, hp0.2.2.2.1, hveq, hieq, pureV_succ, pureS_succ]
      rw [hp0.1, hp0.2.2.2.1, hp0.2.2.1, hveq, hieq] at hlt
      rw [← pureS_succ, ← pureV_succ] at hlt
      refine ⟨hveq', hi', ?_⟩
      intro m hm
      rcases Nat.lt_or_ge m n with h2 | h2
      · exact hbound m h2
      · have hmn : m = n := by omega
        rw [hmn]
        exact hlt

lemma C4_init : C4Inv ⟨net4, List.replicate net4.n_hidden [],
    List.replicate net4.n_output []⟩ 0 := by
  refine ⟨rfl, rfl, rfl, rfl, rfl,
    ⟨freshLIF 0 0.9, rfl, rfl, rfl, rfl, rfl⟩,
    ⟨freshLIF 0 0.8, freshLIF 0 0.8, freshLIF 0 0.8, rfl,
      ⟨rfl, rfl, rfl, rfl, rfl⟩, ⟨rfl, rfl, rfl, rfl, rfl⟩,
      ⟨rfl, rfl, rfl, rfl, rfl⟩,
      le_refl 0, le_refl 0, le_refl 0, le_refl 0, ?_⟩,
    rfl, ⟨[], rfl⟩⟩
  intro _
  exact ⟨rfl, rfl, fun m hm => absurd hm (Nat.not_lt_zero m)⟩

lemma C4_loop : ∀ n : ℕ,
    C4Inv ((List.range n).foldl (simStep trains0 (some 0))
      ⟨net4, List.replicate net4.n_hidden [], List.replicate net4.n_output []⟩) n := by
  intro n
  induction n with
  | zero => exact C4_init
  | succ n ih =>
    rw [List.range_succ, List.foldl_append]
    simp only [List.foldl_cons, List.foldl_nil]
    exact C4_step _ n ih

/-- Counterexample to the end-to-end zero-spike expectation: with pattern
`[1,0,1,1]`, label 0, 200 steps of `dt = 1`, all weights 0 and no input
spikes, the labeled output neuron 0 does spike (driven by the +0.5
supervised bias), so the output layer's spike record is not empty. -/
theorem end_to_end_labeled_output_spikes :
    net4.simulate_pattern pattern4 trains0 200 (some 0) =
      Except.ok (simLoop net4 trains0 200 (some 0)) ∧
    (simLoop net4 trains0 200 (some 0)).output_spikes.getD 0 [] ≠ [] ∧
    (simLoop net4 trains0 200 (some 0)).output_spikes ≠ List.replicate 3 [] := by
  have hmain : (simLoop net4 trains0 200 (some 0)).output_spikes.getD 0 [] ≠ [] := by
    intro hemp
    have hInv : C4Inv (simLoop net4 trains0 200 (some 0)) 200 := C4_loop 200
    obtain ⟨_, _, _, _, _, _,
      ⟨o0, o1, o2, hOut, hp0, hp1, hp2, hv1, hi1, hv2, hi2, htrack⟩,
      _, s0, hos⟩ := hInv
    obtain ⟨_, _, hbound⟩ := htrack hemp
    have h30 : pureV 30 < 0.8 := by
      have h := hbound 29 (by omega)
      norm_num at h ⊢
      convert h using 2
    have := pureV_30
    linarith
  refine ⟨?_, hmain, ?_⟩
  · rw [STDP_Network.simulate_pattern, if_neg]
    intro hcon
    have h2 := hcon.2
    have : trains0.length = 4 := rfl
    rw [this] at h2
    exact absurd h2 (by norm_num [net4])
  · intro hrep
    apply hmain
    rw [hrep]
    rfl

/-- C4 (amended): in the same end-to-end run, the hidden layer records zero
spikes for the entire presentation and the two non-labeled output neurons
record zero spikes; only the labeled output neuron 0 fires. -/
theorem end_to_end_hidden_and_wrong_outputs_silent :
    net4.simulate_pattern pattern4 trains0 200 (some 0) =
      Except.ok (simLoop net4 trains0 200 (some 0)) ∧
    (simLoop net4 trains0 200 (some 0)).hidden_spikes = List.replicate 8 [] ∧
    (simLoop net4 trains0 200 (some 0)).output_spikes.getD 1 [] = [] ∧
    (simLoop net4 trains0 200 (some 0)).output_spikes.getD 2 [] = [] := by
  have hInv : C4Inv (simLoop net4 trains0 200 (some 0)) 200 := C4_loop 200
  obtain ⟨_, _, _, _, _, _, _, hhs, s0, hos⟩ := hInv
  refine ⟨?_, hhs, ?_, ?_⟩
  · rw [STDP_Network.simulate_pattern, if_neg]
    intro hcon
    have h2 := hcon.2
    have h4 : trains0.length = 4 := rfl
    rw [h4] at h2
    exact absurd h2 (by norm_num [net4])
  · rw [hos]; rfl
  · rw [hos]; rfl
